import Mathlib

/-!
Verification development for the voxel chunk subsystem of the QubeForge
repository.

The TypeScript source is shallowly embedded:

* a voxel volume (a JS `Uint8Array` of length `S*S*H`) is a total function
  `Int → Nat`; a write truncates the stored value mod 256 exactly as a
  `Uint8Array` store does, and in-bounds reads of the embedded code only
  ever hit indices that were initialised to 0 or written by the code;
* the `simplex-noise` sampler built from the world seed is an external
  library value; it is abstracted as a function `ℚ → ℚ → ℚ` shared by both
  runs of any generation (the spec, §4.A, requires the sampler to be a pure
  function of the seed, so quantifying over the sampler quantifies over the
  seed);
* the ambient unseeded `Math.random()` used by ore and tree decoration is
  modelled as a stream `ℕ → ℚ` together with a cursor index that the
  embedded code threads through every draw, in the exact source order;
* the `while (currentLen < targetLen && fails < 10)` vein-growth loop of the
  source has no syntactic bound (its termination is only probabilistic), so
  the embedding gives it explicit fuel; every terminating run of the source
  is reproduced by every sufficiently large fuel value;
* JS `Map`s keyed by the canonical string `"cx,cz"` are association lists
  keyed by the pair `(cx, cz) : ℤ × ℤ` (the string encoding is injective),
  and JS `Set`s of such keys are `Finset (ℤ × ℤ)`;
* `Math.floor(a / b)` on integers is `Int.fdiv`, and `Math.floor` of a real
  expression is `Int.floor` of the corresponding rational.
-/

/-- A voxel volume: the embedding of a `Uint8Array`, as a total map from
flat index to stored byte. -/
def Vol : Type := Int → Nat

/-- The all-zero (all `AIR`) volume: the zero-initialised `Uint8Array` the
generators receive. -/
def vol0 : Vol := fun _ => 0

/-- A `Uint8Array` store `data[i] = v`: the stored byte is `v % 256`. -/
def vwrite (d : Vol) (i : Int) (v : Nat) : Vol :=
  fun j => if j = i then v % 256 else d j

/-- `getBlockIndex` from the source: `x + y*chunkSize + z*chunkSize*chunkHeight`. -/
def gIdx (S H : Nat) (x y z : Int) : Int :=
  x + y * (S : Int) + z * (S : Int) * (H : Int)

/-- Lookup in an association list embedding a JS `Map` keyed by chunk key. -/
def alookup (l : List ((Int × Int) × Vol)) (k : Int × Int) : Option Vol :=
  match l with
  | [] => none
  | (k', v) :: rest => if k' = k then some v else alookup rest k

/-- In-place replacement of the volume stored under a key (the source
mutates the `Uint8Array` held by the `Map`, leaving the key set and
iteration order unchanged). -/
def aset (l : List ((Int × Int) × Vol)) (k : Int × Int) (v : Vol) :
    List ((Int × Int) × Vol) :=
  l.map (fun p => if p.1 = k then (k, v) else p)

/-- Remove every entry with the given key (a JS `Map.delete`). -/
def adel (l : List ((Int × Int) × Vol)) (k : Int × Int) :
    List ((Int × Int) × Vol) :=
  l.filter (fun p => p.1 ≠ k)

/-- The unseeded `Math.random()` of the decoration passes: a stream of
rational draws consumed at a cursor. `rnd s i` is the draw at cursor `i`;
the successor cursor is `i+1`. -/
def rnd (s : Nat → ℚ) (i : Nat) : ℚ × Nat := (s i, i + 1)

namespace Worker

/-- `getTerrainHeight` of `terrain.worker.ts` (lines 44-49):
`floor(noise2D(worldX/50, worldZ/50) * 8) + 20`, clamped below at 1. -/
def getTerrainHeight (noise : ℚ → ℚ → ℚ) (worldX worldZ : Int) : Int :=
  let noiseValue := noise ((worldX : ℚ) / 50) ((worldZ : ℚ) / 50)
  let height := ⌊noiseValue * 8⌋ + 20
  if height < 1 then 1 else height

/-- The block id written at height `y` of a column of surface height
`height` (the body of the terrain fill loop): `BEDROCK` at 0, `GRASS` at
the surface, `DIRT` in the top three sub-surface layers, `STONE` below. -/
def terrainType (height : Int) (y : Nat) : Nat :=
  if (y : Int) = 0 then 4
  else if (y : Int) = height then 1
  else if (y : Int) ≥ height - 3 then 2
  else 3

/-- The per-column fill of `generateTerrain`: writes `terrainType` at every
`y ∈ [0, height]` of column `(x, z)`. -/
def colFill (S H : Nat) (height : Int) (x z : Nat) (d : Vol) : Vol :=
  (List.range (height.toNat + 1)).foldl
    (fun d (y : Nat) => vwrite d (gIdx S H x y z) (terrainType height y)) d

/-- The clamped surface height used by `generateTerrain` for a column:
`getTerrainHeight`, additionally clamped above at `chunkHeight - 1`. -/
def colHeight (H : Nat) (noise : ℚ → ℚ → ℚ) (startX startZ : Int)
    (x z : Nat) : Int :=
  let h := getTerrainHeight noise (startX + x) (startZ + z)
  if h ≥ (H : Int) then (H : Int) - 1 else h

/-- `generateTerrain` of `terrain.worker.ts` (lines 55-81): the double loop
over the chunk's columns, each filled by `colFill` up to its clamped
height. -/
def generateTerrain (S H : Nat) (noise : ℚ → ℚ → ℚ) (startX startZ : Int)
    (d : Vol) : Vol :=
  (List.range S).foldl
    (fun d x =>
      (List.range S).foldl
        (fun d z => colFill S H (colHeight H noise startX startZ x z) x z d)
        d)
    d

/-- The six axis-aligned steps of the vein random walk, selected by
`dir = floor(random * 6)` (for a draw in `[0,1)` the final branch is
unreachable). -/
def veinMove (vx vy vz dir : Int) : Int × Int × Int :=
  if dir = 0 then (vx + 1, vy, vz)
  else if dir = 1 then (vx - 1, vy, vz)
  else if dir = 2 then (vx, vy + 1, vz)
  else if dir = 3 then (vx, vy - 1, vz)
  else if dir = 4 then (vx, vy, vz + 1)
  else if dir = 5 then (vx, vy, vz - 1)
  else (vx, vy, vz)

/-- The `while (currentLen < targetLen && fails < 10)` growth loop of
`generateVein`, with explicit fuel (the source loop has no syntactic
bound). Each iteration draws a direction; an in-bounds stone neighbour is
converted and entered, an existing ore neighbour is entered, anything else
counts as a failure. -/
def veinGrow (S H : Nat) (s : Nat → ℚ) (blockType targetLen : Nat)
    (fuel : Nat) (pos : Int × Int × Int) (currentLen fails : Nat)
    (st : Vol × Nat) : Vol × Nat :=
  match fuel with
  | 0 => st
  | fuel + 1 =>
    if currentLen < targetLen ∧ fails < 10 then
      let q := rnd s st.2
      let dir := ⌊q.1 * 6⌋
      let n := veinMove pos.1 pos.2.1 pos.2.2 dir
      if 0 ≤ n.1 ∧ n.1 < (S : Int) ∧ 0 < n.2.1 ∧ n.2.1 < (H : Int) ∧
          0 ≤ n.2.2 ∧ n.2.2 < (S : Int) then
        let j := gIdx S H n.1 n.2.1 n.2.2
        if st.1 j = 3 then
          veinGrow S H s blockType targetLen fuel n (currentLen + 1) fails
            (vwrite st.1 j blockType, q.2)
        else if st.1 j = blockType then
          veinGrow S H s blockType targetLen fuel n currentLen fails
            (st.1, q.2)
        else
          veinGrow S H s blockType targetLen fuel pos currentLen (fails + 1)
            (st.1, q.2)
      else
        veinGrow S H s blockType targetLen fuel pos currentLen (fails + 1)
          (st.1, q.2)
    else st

/-- One iteration of the `attempts` loop of `generateVein`: draw a start
column `(vx, vz)` and a height `vy` below the stone line of that column;
when the cell is stone, seed the ore and run the growth walk. -/
def veinAttempt (S H : Nat) (noise : ℚ → ℚ → ℚ) (s : Nat → ℚ)
    (startX startZ : Int) (blockType targetLen fuel : Nat)
    (st : Vol × Nat) : Vol × Nat :=
  let q1 := rnd s st.2
  let vx : Int := ⌊q1.1 * (S : ℚ)⌋
  let q2 := rnd s q1.2
  let vz : Int := ⌊q2.1 * (S : ℚ)⌋
  let surfaceHeight := getTerrainHeight noise (startX + vx) (startZ + vz)
  let maxStoneY := max 2 (surfaceHeight - 3)
  let q3 := rnd s q2.2
  let vy : Int := ⌊q3.1 * ((maxStoneY - 1 : Int) : ℚ)⌋ + 1
  let j := gIdx S H vx vy vz
  if st.1 j = 3 then
    veinGrow S H s blockType targetLen fuel (vx, vy, vz) 1 0
      (vwrite st.1 j blockType, q3.2)
  else (st.1, q3.2)

/-- `generateVein` of `terrain.worker.ts` (lines 97-156): `attempts` tries,
each drawing a start column and height; a try that lands on stone seeds an
ore cell and runs the growth walk. -/
def generateVein (S H : Nat) (noise : ℚ → ℚ → ℚ) (s : Nat → ℚ)
    (startX startZ : Int) (blockType targetLen attempts fuel : Nat)
    (st : Vol × Nat) : Vol × Nat :=
  (List.range attempts).foldl
    (fun st _ => veinAttempt S H noise s startX startZ blockType targetLen fuel st)
    st

/-- `generateOres` of `terrain.worker.ts` (lines 84-95): coal `(8, 80)`
then iron `(6, 50)`. -/
def generateOres (S H : Nat) (noise : ℚ → ℚ → ℚ) (s : Nat → ℚ)
    (startX startZ : Int) (fuel : Nat) (st : Vol × Nat) : Vol × Nat :=
  generateVein S H noise s startX startZ 11 6 50 fuel
    (generateVein S H noise s startX startZ 10 8 80 fuel st)

/-- `findSurfaceHeight` of `terrain.worker.ts` (lines 158-171): scan the
column downward from `chunkHeight - 1`; `-1` when the column is all air.
The counter argument is the number of layers left to scan. -/
def findSurfaceHeight (S H : Nat) (d : Vol) (x z : Int) : Nat → Int
  | 0 => -1
  | n + 1 => if d (gIdx S H x n z) ≠ 0 then (n : Int) else
      findSurfaceHeight S H d x z n

/-- `placeTree` of `terrain.worker.ts` (lines 191-237): a trunk of 4-5
`WOOD`, then four foliage layers of `LEAVES` with corner rounding, never
overwriting `WOOD`. -/
def placeTree (S H : Nat) (s : Nat → ℚ) (startX startY startZ : Int)
    (st : Vol × Nat) : Vol × Nat :=
  let q := rnd s st.2
  let trunkHeight : Int := ⌊q.1 * 2⌋ + 4
  let d1 := (List.range trunkHeight.toNat).foldl
    (fun d (ty : Nat) =>
      if startY + ty < (H : Int) then
        vwrite d (gIdx S H startX (startY + ty) startZ) 5
      else d)
    st.1
  let leavesStart := startY + trunkHeight - 2
  (List.range 4).foldl
    (fun st (ly : Nat) =>
      let y := leavesStart + ly
      let dy := y - (startY + trunkHeight - 1)
      let radius : Int := if dy = 2 then 1 else if dy = -1 then 2 else 2
      (List.range (2 * radius + 1).toNat).foldl
        (fun st (lx : Nat) =>
          let x := startX - radius + lx
          (List.range (2 * radius + 1).toNat).foldl
            (fun st (lz : Nat) =>
              let z := startZ - radius + lz
              let dx := x - startX
              let dz := z - startZ
              let put : Vol × Nat → Vol × Nat := fun st =>
                if 0 ≤ x ∧ x < (S : Int) ∧ 0 ≤ y ∧ y < (H : Int) ∧
                    0 ≤ z ∧ z < (S : Int) then
                  if st.1 (gIdx S H x y z) ≠ 5 then
                    (vwrite st.1 (gIdx S H x y z) 6, st.2)
                  else st
                else st
              if |dx| = radius ∧ |dz| = radius then
                let qc := rnd s st.2
                if qc.1 < 2 / 5 then (st.1, qc.2)
                else put (st.1, qc.2)
              else put st)
            st)
        st)
    (d1, q.2)

/-- `generateTrees` of `terrain.worker.ts` (lines 173-189): for every
column in the 2-wide border margin, find the surface; on grass, with
probability 0.01, place a tree above it. -/
def generateTrees (S H : Nat) (s : Nat → ℚ) (st : Vol × Nat) : Vol × Nat :=
  (List.range' 2 (S - 4)).foldl
    (fun st (x : Nat) =>
      (List.range' 2 (S - 4)).foldl
        (fun st (z : Nat) =>
          let height := findSurfaceHeight S H st.1 x z H
          if 0 < height then
            if st.1 (gIdx S H x height z) = 1 then
              let q := rnd s st.2
              if q.1 < 1 / 100 then
                placeTree S H s x (height + 1) z (st.1, q.2)
              else (st.1, q.2)
            else st
          else st)
        st)
    st

/-- The worker's `generate` message handler body (lines 260-295): a
zero-initialised volume filled by `generateTerrain`, then `generateOres`,
then `generateTrees`. The sampler stands for the seed (§4.A purity), `s`
is the ambient `Math.random()` stream with start cursor `i0`. -/
def generateChunkData (S H : Nat) (noise : ℚ → ℚ → ℚ) (s : Nat → ℚ)
    (fuel i0 : Nat) (cx cz : Int) : Vol :=
  let startX := cx * (S : Int)
  let startZ := cz * (S : Int)
  let d1 := generateTerrain S H noise startX startZ vol0
  (generateTrees S H s (generateOres S H noise s startX startZ fuel (d1, i0))).1

end Worker

/-! ### Lookup lemmas for volume writes -/

theorem vwrite_self (d : Vol) (i : Int) (v : Nat) : vwrite d i v i = v % 256 := by
  simp [vwrite]

theorem vwrite_other (d : Vol) {i j : Int} (v : Nat) (h : j ≠ i) :
    vwrite d i v j = d j := by
  simp [vwrite, h]

namespace Worker

theorem getTerrainHeight_pos (noise : ℚ → ℚ → ℚ) (wx wz : Int) :
    1 ≤ getTerrainHeight noise wx wz := by
  simp only [getTerrainHeight]
  split <;> omega

theorem colHeight_pos (H : Nat) (noise : ℚ → ℚ → ℚ) (startX startZ : Int)
    (x z : Nat) (hH : 2 ≤ H) : 1 ≤ colHeight H noise startX startZ x z := by
  simp only [colHeight]
  have := getTerrainHeight_pos noise (startX + x) (startZ + z)
  split <;> omega

theorem colHeight_lt (H : Nat) (noise : ℚ → ℚ → ℚ) (startX startZ : Int)
    (x z : Nat) (hH : 2 ≤ H) : colHeight H noise startX startZ x z < (H : Int) := by
  simp only [colHeight]
  have := getTerrainHeight_pos noise (startX + x) (startZ + z)
  split <;> omega

/-- Two cells of the same column share a flat index iff they share a height. -/
theorem gIdx_col_inj {x z : Nat} {y y' : Nat}
    (h : gIdx 32 128 x y' z = gIdx 32 128 x y z) : y' = y := by
  simp only [gIdx] at h
  omega

/-- Distinct in-bounds columns never alias a cell. -/
theorem gIdx_col_ne {x x' z z' : Nat} {y y' : Nat}
    (hxz : x' ≠ x ∨ z' ≠ z) (hx : x < 32) (hx' : x' < 32) (hz : z < 32)
    (hz' : z' < 32) (hy : y < 128) (hy' : y' < 128) :
    gIdx 32 128 x' y' z' ≠ gIdx 32 128 x y z := by
  simp only [gIdx]
  intro h
  rcases hxz with h1 | h1 <;> [skip; skip] <;> apply h1 <;> omega

/-- Value of a column fill at a cell of the same column: the terrain
classification when the cell is at or below the written range, the prior
value above it. -/
theorem colFill_fold_value (x z : Nat) (h : Int) (y : Nat) :
    ∀ (ys : List Nat) (d : Vol),
      (ys.foldl (fun d (y' : Nat) =>
          vwrite d (gIdx 32 128 x y' z) (terrainType h y')) d)
        (gIdx 32 128 x y z)
      = if y ∈ ys then terrainType h y % 256 else d (gIdx 32 128 x y z) := by
  intro ys
  induction ys with
  | nil => intro d; simp
  | cons a ys ih =>
    intro d
    simp only [List.foldl_cons, List.mem_cons]
    by_cases hay : a = y
    · subst hay
      rw [ih]
      by_cases hmem : a ∈ ys
      · simp [hmem]
      · simp [hmem, vwrite_self]
    · rw [ih]
      have hne : gIdx 32 128 x y z ≠ gIdx 32 128 x a z :=
        fun hc => hay (gIdx_col_inj hc).symm
      by_cases hmem : y ∈ ys
      · simp [hmem, hay]
      · rw [if_neg hmem, vwrite_other _ _ hne,
          if_neg (by simp only [List.mem_cons, not_or]
                     exact ⟨fun hc => hay hc.symm, hmem⟩)]

/-- A column fill of a different column leaves a cell unchanged. -/
theorem colFill_fold_frame (x x' z z' : Nat) (h : Int) (y : Nat)
    (hxz : x' ≠ x ∨ z' ≠ z) (hx : x < 32) (hx' : x' < 32) (hz : z < 32)
    (hz' : z' < 32) (hy : y < 128) :
    ∀ (ys : List Nat), (∀ a ∈ ys, a < 128) → ∀ (d : Vol),
      (ys.foldl (fun d (y' : Nat) =>
          vwrite d (gIdx 32 128 x' y' z') (terrainType h y')) d)
        (gIdx 32 128 x y z)
      = d (gIdx 32 128 x y z) := by
  intro ys
  induction ys with
  | nil => intro _ d; simp
  | cons a ys ih =>
    intro hb d
    simp only [List.foldl_cons]
    rw [ih (fun a ha => hb a (List.mem_cons_of_mem _ ha))]
    have hne : gIdx 32 128 x y z ≠ gIdx 32 128 x' a z' :=
      (gIdx_col_ne hxz hx hx' hz hz' hy (hb a (List.mem_cons_self a ys))).symm
    exact vwrite_other _ _ hne

theorem colFill_value (x z : Nat) (h : Int) (y : Nat) (d : Vol)
    (hh0 : 1 ≤ h) (hy : y < 128) :
    colFill 32 128 h x z d (gIdx 32 128 x y z)
      = if (y : Int) ≤ h then terrainType h y % 256 else d (gIdx 32 128 x y z) := by
  unfold colFill
  rw [colFill_fold_value]
  have : y ∈ List.range (h.toNat + 1) ↔ (y : Int) ≤ h := by
    rw [List.mem_range]
    omega
  by_cases hc : (y : Int) ≤ h
  · rw [if_pos (this.mpr hc), if_pos hc]
  · rw [if_neg (fun hm => hc (this.mp hm)), if_neg hc]

theorem colFill_frame (x x' z z' : Nat) (h : Int) (y : Nat) (d : Vol)
    (hxz : x' ≠ x ∨ z' ≠ z) (hx : x < 32) (hx' : x' < 32) (hz : z < 32)
    (hz' : z' < 32) (hy : y < 128) (hhH : h < 128) :
    colFill 32 128 h x' z' d (gIdx 32 128 x y z) = d (gIdx 32 128 x y z) := by
  unfold colFill
  exact colFill_fold_frame x x' z z' h y hxz hx hx' hz hz' hy _
    (fun a ha => by have := List.mem_range.mp ha; omega) d

/-- Value of the inner `z` loop of `generateTerrain` at a cell with the
same `x`. -/
theorem zfold_value (noise : ℚ → ℚ → ℚ) (sx sz : Int) (x y z : Nat)
    (hx : x < 32) (hy : y < 128) (hz : z < 32) :
    ∀ (zs : List Nat), (∀ a ∈ zs, a < 32) → ∀ (d : Vol),
      (zs.foldl (fun d z' =>
          colFill 32 128 (colHeight 128 noise sx sz x z') x z' d) d)
        (gIdx 32 128 x y z)
      = if z ∈ zs ∧ (y : Int) ≤ colHeight 128 noise sx sz x z then
          terrainType (colHeight 128 noise sx sz x z) y % 256
        else d (gIdx 32 128 x y z) := by
  intro zs
  induction zs with
  | nil => intro _ d; simp
  | cons a zs ih =>
    intro hb d
    simp only [List.foldl_cons]
    rw [ih (fun a ha => hb a (List.mem_cons_of_mem _ ha))]
    by_cases haz : a = z
    · subst haz
      rw [colFill_value x a _ y d (colHeight_pos 128 noise sx sz x a (by omega)) hy]
      by_cases hyh : (y : Int) ≤ colHeight 128 noise sx sz x a
      · by_cases hmem : a ∈ zs <;> simp [hmem, hyh]
      · by_cases hmem : a ∈ zs <;> simp [hmem, hyh]
    · rw [colFill_frame x x z a _ y d (Or.inr haz) hx hx hz
        (hb a (List.mem_cons_self a zs)) hy
        (colHeight_lt 128 noise sx sz x a (by omega))]
      by_cases hmem : z ∈ zs
      · simp [hmem, haz]
      · have : ¬ z ∈ a :: zs := by
          simp only [List.mem_cons, not_or]
          exact ⟨fun hc => haz hc.symm, hmem⟩
        simp [hmem, this]

/-- The inner `z` loop for a different `x` leaves a cell unchanged. -/
theorem zfold_frame (noise : ℚ → ℚ → ℚ) (sx sz : Int) (x x' y z : Nat)
    (hxx : x' ≠ x) (hx : x < 32) (hx' : x' < 32) (hy : y < 128) (hz : z < 32) :
    ∀ (zs : List Nat), (∀ a ∈ zs, a < 32) → ∀ (d : Vol),
      (zs.foldl (fun d z' =>
          colFill 32 128 (colHeight 128 noise sx sz x' z') x' z' d) d)
        (gIdx 32 128 x y z)
      = d (gIdx 32 128 x y z) := by
  intro zs
  induction zs with
  | nil => intro _ d; simp
  | cons a zs ih =>
    intro hb d
    simp only [List.foldl_cons]
    rw [ih (fun a ha => hb a (List.mem_cons_of_mem _ ha))]
    exact colFill_frame x x' z a _ y d (Or.inl hxx) hx hx' hz
      (hb a (List.mem_cons_self a zs)) hy
      (colHeight_lt 128 noise sx sz x' a (by omega))

/-- Value of the full double loop of `generateTerrain` at a cell. -/
theorem xfold_value (noise : ℚ → ℚ → ℚ) (sx sz : Int) (x y z : Nat)
    (hx : x < 32) (hy : y < 128) (hz : z < 32) :
    ∀ (xs : List Nat), (∀ a ∈ xs, a < 32) → ∀ (d : Vol),
      (xs.foldl (fun d x' =>
          (List.range 32).foldl (fun d z' =>
            colFill 32 128 (colHeight 128 noise sx sz x' z') x' z' d) d) d)
        (gIdx 32 128 x y z)
      = if x ∈ xs ∧ (y : Int) ≤ colHeight 128 noise sx sz x z then
          terrainType (colHeight 128 noise sx sz x z) y % 256
        else d (gIdx 32 128 x y z) := by
  intro xs
  induction xs with
  | nil => intro _ d; simp
  | cons a xs ih =>
    intro hb d
    simp only [List.foldl_cons]
    rw [ih (fun a ha => hb a (List.mem_cons_of_mem _ ha))]
    by_cases hax : a = x
    · subst hax
      rw [zfold_value noise sx sz a y z hx hy hz (List.range 32)
        (fun a ha => List.mem_range.mp ha) d]
      have hzr : z ∈ List.range 32 := List.mem_range.mpr hz
      by_cases hyh : (y : Int) ≤ colHeight 128 noise sx sz a z
      · by_cases hmem : a ∈ xs <;> simp [hmem, hyh, hzr]
      · by_cases hmem : a ∈ xs <;> simp [hmem, hyh, hzr]
    · rw [zfold_frame noise sx sz x a y z hax hx
        (hb a (List.mem_cons_self a xs)) hy hz (List.range 32)
        (fun a ha => List.mem_range.mp ha) d]
      by_cases hmem : x ∈ xs
      · simp [hmem, hax]
      · have : ¬ x ∈ a :: xs := by
          simp only [List.mem_cons, not_or]
          exact ⟨fun hc => hax hc.symm, hmem⟩
        simp [hmem, this]

/-- Characterisation of a freshly terrain-filled volume at any in-range
cell. -/
theorem generateTerrain_value (noise : ℚ → ℚ → ℚ) (sx sz : Int)
    (x y z : Nat) (hx : x < 32) (hy : y < 128) (hz : z < 32) :
    generateTerrain 32 128 noise sx sz vol0 (gIdx 32 128 x y z)
      = if (y : Int) ≤ colHeight 128 noise sx sz x z then
          terrainType (colHeight 128 noise sx sz x z) y % 256
        else 0 := by
  unfold generateTerrain
  rw [xfold_value noise sx sz x y z hx hy hz (List.range 32)
    (fun a ha => List.mem_range.mp ha) vol0]
  have hxr : x ∈ List.range 32 := List.mem_range.mpr hx
  by_cases hyh : (y : Int) ≤ colHeight 128 noise sx sz x z
  · simp [hxr, hyh]
  · simp [hxr, hyh, vol0]

/-- The composed clamp of the code (`getTerrainHeight` clamps below at 1,
the fill loop clamps above at `H-1`) equals the spec's clamp to
`[1, H-1]`. -/
theorem colHeight_eq_clamp (noise : ℚ → ℚ → ℚ) (sx sz : Int) (x z : Nat) :
    colHeight 128 noise sx sz x z
      = min 127 (max 1 (⌊noise ((sx + (x : Int) : ℚ) / 50)
          ((sz + (z : Int) : ℚ) / 50) * 8⌋ + 20)) := by
  simp only [colHeight, getTerrainHeight]
  push_cast
  split_ifs <;> omega

theorem terrainType_mod (h : Int) (y : Nat) :
    terrainType h y % 256 = terrainType h y := by
  unfold terrainType
  split_ifs <;> norm_num

end Worker

/-- C3. For every chunk column the terrain fill computes
`h = floor(noise(worldX/50, worldZ/50) * 8) + 20` clamped to `[1, H-1]`
and writes `BEDROCK` at `y = 0`, `GRASS` at `y = h`, `DIRT` for
`h-3 ≤ y < h`, `STONE` for the remaining `0 < y < h-3`, leaving every cell
above `h` as `AIR`. -/
theorem c3_terrain_column_layout (noise : ℚ → ℚ → ℚ) (startX startZ : Int)
    (x y z : Nat) (hx : x < 32) (hy : y < 128) (hz : z < 32) :
    Worker.generateTerrain 32 128 noise startX startZ vol0 (gIdx 32 128 x y z)
      = (let h : Int := min 127 (max 1
            (⌊noise ((startX + (x : Int) : ℚ) / 50)
              ((startZ + (z : Int) : ℚ) / 50) * 8⌋ + 20));
         if h < (y : Int) then 0
         else if (y : Int) = 0 then 4
         else if (y : Int) = h then 1
         else if h - 3 ≤ (y : Int) then 2
         else 3) := by
  rw [Worker.generateTerrain_value noise startX startZ x y z hx hy hz,
    Worker.terrainType_mod, ← Worker.colHeight_eq_clamp noise startX startZ x z]
  unfold Worker.terrainType
  dsimp only
  split_ifs <;> omega

/-- Witness for `c3_terrain_column_layout` at a concrete sampler and cell:
with the constant sampler `-1` the surface height is 12, so the cell
`(5, 12, 7)` of chunk `(0,0)` is `GRASS`. -/
theorem c3_terrain_column_layout_witness :
    5 < 32 ∧ 12 < 128 ∧ 7 < 32 ∧
      Worker.generateTerrain 32 128 (fun _ _ => -1) 0 0 vol0
        (gIdx 32 128 ((5 : Nat) : Int) ((12 : Nat) : Int) ((7 : Nat) : Int))
        = 1 := by
  refine ⟨by norm_num, by norm_num, by norm_num, ?_⟩
  rw [c3_terrain_column_layout (fun _ _ => -1) 0 0 5 12 7 (by norm_num)
    (by norm_num) (by norm_num)]
  norm_num

/-! ### C2: determinism of chunk generation -/

/-- A fold whose step preserves the volume component of the state keeps
the volume of the initial state. -/
theorem foldl_fst_const {α : Type} (f : Vol × Nat → α → Vol × Nat)
    (hf : ∀ st a, (f st a).1 = st.1) :
    ∀ (l : List α) (st : Vol × Nat), (l.foldl f st).1 = st.1 := by
  intro l
  induction l with
  | nil => intro st; rfl
  | cons a l ih => intro st; rw [List.foldl_cons, ih, hf]

/-- A fold whose step ignores the list element is an iterate of the step. -/
theorem foldl_const_apply {α β : Type} (g : β → β) :
    ∀ (l : List α) (b : β), l.foldl (fun b _ => g b) b = g^[l.length] b := by
  intro l
  induction l with
  | nil => intro b; rfl
  | cons a l ih =>
    intro b
    rw [List.foldl_cons, ih, List.length_cons, Function.iterate_succ_apply]

/-- When every draw of the stream fails the 1% tree check, the tree pass
leaves the volume untouched. -/
theorem generateTrees_fst (S H : Nat) (s : Nat → ℚ)
    (hs : ∀ n, ¬ s n < 1 / 100) (st : Vol × Nat) :
    (Worker.generateTrees S H s st).1 = st.1 := by
  unfold Worker.generateTrees
  apply foldl_fst_const
  intro st x
  apply foldl_fst_const
  intro st z
  dsimp only
  split_ifs with h1 h2 h3
  · exact absurd h3 (hs st.2)
  · rfl
  · rfl
  · rfl

/-- The `Math.random()` stream of the determinism counterexample: the
start-column draws return `a`, the height draws return `1/10`, and the ten
growth draws of the first try return `1/2`. -/
def cexStream (a : ℚ) : Nat → ℚ := fun n =>
  if 3 ≤ n ∧ n ≤ 12 then 1 / 2
  else if n % 3 = 2 ∧ n < 13 then 1 / 10
  else if n % 3 = 0 ∧ 15 ≤ n then 1 / 10
  else a

/-- A growth walk started at height 1 with every direction draw `1/2`
(direction 3, downward) steps out of bounds every time and exhausts its
ten failures without writing. -/
theorem veinGrow_fails_out (s : Nat → ℚ) (bt tl : Nat) :
    ∀ (k fuel : Nat) (px pz : Int) (len fails : Nat) (d : Vol) (i : Nat),
      len < tl → fails + k = 10 → k ≤ fuel →
      (∀ m, m < k → s (i + m) = 1 / 2) →
      Worker.veinGrow 32 128 s bt tl fuel (px, 1, pz) len fails (d, i)
        = (d, i + k) := by
  intro k
  induction k with
  | zero =>
    intro fuel px pz len fails d i hlen hfail hfuel hs
    have h10 : fails = 10 := by omega
    subst h10
    cases fuel with
    | zero => rfl
    | succ f => simp [Worker.veinGrow]
  | succ k ih =>
    intro fuel px pz len fails d i hlen hfail hfuel hs
    cases fuel with
    | zero => omega
    | succ f =>
      have h0 : s i = 1 / 2 := by
        have := hs 0 (by omega)
        simpa using this
      rw [Worker.veinGrow]
      dsimp only [rnd]
      rw [if_pos ⟨hlen, by omega⟩, h0]
      have hdir : (⌊(1 / 2 : ℚ) * 6⌋ : Int) = 3 := by norm_num
      rw [hdir]
      have hmv : Worker.veinMove px 1 pz 3 = (px, 0, pz) := by
        norm_num [Worker.veinMove]
      rw [hmv]
      rw [if_neg (by simp)]
      rw [ih f px pz len (fails + 1) d (i + 1) hlen (by omega) (by omega)
        (fun m hm => by
          have := hs (m + 1) (by omega)
          rwa [show i + 1 + m = i + (m + 1) by omega])]
      exact congrArg _ (by omega)

theorem getTerrainHeight_const_neg_one (wx wz : Int) :
    Worker.getTerrainHeight (fun _ _ => (-1 : ℚ)) wx wz = 12 := by
  simp only [Worker.getTerrainHeight]
  norm_num

theorem colHeight_const_neg_one (sx sz : Int) (x z : Nat) :
    Worker.colHeight 128 (fun _ _ => -1) sx sz x z = 12 := by
  simp only [Worker.colHeight, getTerrainHeight_const_neg_one]
  norm_num

/-- With the constant sampler `-1` every column's stone band covers
height 1, so the cell `(vn, 1, vn)` of the fresh terrain is `STONE`. -/
theorem terrain_const_neg_one_stone (vn : Nat) (hvn : vn < 32) :
    Worker.generateTerrain 32 128 (fun _ _ => -1) 0 0 vol0
      (gIdx 32 128 vn 1 vn) = 3 := by
  have h := Worker.generateTerrain_value (fun _ _ => -1) 0 0 vn 1 vn hvn
    (by norm_num) hvn
  rw [Nat.cast_one] at h
  rw [h, colHeight_const_neg_one]
  norm_num [Worker.terrainType]

/-- An attempt of the counterexample stream taken at a cursor `≡ 1 mod 3`
past the first try targets the cell `(vn, 1, vn)`; when that cell is no
longer stone the attempt only advances the cursor. -/
theorem veinAttempt_skip (a : ℚ) (vn : Nat) (hfl : (⌊a * (32 : ℚ)⌋ : Int) = vn)
    (bt tl fuel : Nat) (d : Vol) (i : Nat) (hi : i % 3 = 1) (hi13 : 13 ≤ i)
    (hd : d (gIdx 32 128 vn 1 vn) ≠ 3) :
    Worker.veinAttempt 32 128 (fun _ _ => -1) (cexStream a) 0 0 bt tl fuel (d, i)
      = (d, i + 3) := by
  have hsi : cexStream a i = a := by
    simp only [cexStream]
    rw [if_neg (by omega), if_neg (by omega), if_neg (by omega)]
  have hsi1 : cexStream a (i + 1) = a := by
    simp only [cexStream]
    rw [if_neg (by omega), if_neg (by omega), if_neg (by omega)]
  have hsi2 : cexStream a (i + 2) = 1 / 10 := by
    simp only [cexStream]
    rw [if_neg (by omega), if_neg (by omega), if_pos (by omega)]
  unfold Worker.veinAttempt
  dsimp only [rnd]
  rw [show i + 1 + 1 = i + 2 by omega]
  rw [hsi, hsi1, hsi2]
  simp only [Nat.cast_ofNat]
  rw [hfl, getTerrainHeight_const_neg_one]
  have hvy : (⌊(1 / 10 : ℚ) * ((max 2 (12 - 3) - 1 : Int) : ℚ)⌋ : Int) + 1 = 1 := by
    norm_num
  rw [hvy, if_neg hd]

/-- Iterated skip attempts only advance the cursor. -/
theorem veinAttempt_skip_iter (a : ℚ) (vn : Nat)
    (hfl : (⌊a * (32 : ℚ)⌋ : Int) = vn) (bt tl fuel : Nat) (d : Vol)
    (hd : d (gIdx 32 128 vn 1 vn) ≠ 3) :
    ∀ (n i : Nat), i % 3 = 1 → 13 ≤ i →
      (Worker.veinAttempt 32 128 (fun _ _ => -1) (cexStream a) 0 0 bt tl
        fuel)^[n] (d, i) = (d, i + 3 * n) := by
  intro n
  induction n with
  | zero => intro i _ _; simp
  | succ n ih =>
    intro i hi hi13
    rw [Function.iterate_succ_apply,
      veinAttempt_skip a vn hfl bt tl fuel d i hi hi13 hd,
      ih (i + 3) (by omega) (by omega)]
    exact congrArg _ (by omega)

/-- The first attempt of the counterexample stream: the start cell
`(vn, 1, vn)` is stone, so the ore is seeded there, and the growth walk
then fails out downward without further writes. -/
theorem veinAttempt_first (a : ℚ) (vn : Nat)
    (hfl : (⌊a * (32 : ℚ)⌋ : Int) = vn) (bt tl : Nat) (htl : 1 < tl)
    (d : Vol) (hd3 : d (gIdx 32 128 vn 1 vn) = 3) :
    Worker.veinAttempt 32 128 (fun _ _ => -1) (cexStream a) 0 0 bt tl 20 (d, 0)
      = (vwrite d (gIdx 32 128 vn 1 vn) bt, 13) := by
  have hs0 : cexStream a 0 = a := by norm_num [cexStream]
  have hs1 : cexStream a 1 = a := by norm_num [cexStream]
  have hs2 : cexStream a 2 = 1 / 10 := by norm_num [cexStream]
  unfold Worker.veinAttempt
  dsimp only [rnd]
  rw [show (0 : Nat) + 1 = 1 from rfl, show (1 : Nat) + 1 = 2 from rfl]
  rw [hs0, hs1, hs2]
  simp only [Nat.cast_ofNat]
  rw [hfl, getTerrainHeight_const_neg_one]
  have hvy : (⌊(1 / 10 : ℚ) * ((max 2 (12 - 3) - 1 : Int) : ℚ)⌋ : Int) + 1 = 1 := by
    norm_num
  rw [hvy, if_pos hd3]
  rw [veinGrow_fails_out (cexStream a) bt tl 10 20 vn vn 1 0 _ 3 htl
    (by omega) (by omega)
    (fun m hm => by
      simp only [cexStream]
      rw [if_pos (by omega)])]

/-- The coal pass of the counterexample run writes exactly one ore cell,
at `(vn, 1, vn)`, and leaves the cursor at 250. -/
theorem generateVein_coal_cex (a : ℚ) (vn : Nat)
    (hfl : (⌊a * (32 : ℚ)⌋ : Int) = vn) (hvn : vn < 32) (d : Vol)
    (hd3 : d (gIdx 32 128 vn 1 vn) = 3) :
    Worker.generateVein 32 128 (fun _ _ => -1) (cexStream a) 0 0 10 8 80 20 (d, 0)
      = (vwrite d (gIdx 32 128 vn 1 vn) 10, 250) := by
  unfold Worker.generateVein
  rw [foldl_const_apply, List.length_range]
  rw [show (80 : Nat) = 79 + 1 from rfl, Function.iterate_succ_apply]
  rw [veinAttempt_first a vn hfl 10 8 (by norm_num) d hd3]
  rw [veinAttempt_skip_iter a vn hfl 10 8 20 _
    (by rw [vwrite_self]; norm_num) 79 13 (by norm_num) (by norm_num)]

/-- The iron pass of the counterexample run finds its target cell already
ore on every try and writes nothing. -/
theorem generateVein_iron_cex (a : ℚ) (vn : Nat)
    (hfl : (⌊a * (32 : ℚ)⌋ : Int) = vn) (d : Vol)
    (hd : d (gIdx 32 128 vn 1 vn) ≠ 3) :
    Worker.generateVein 32 128 (fun _ _ => -1) (cexStream a) 0 0 11 6 50 20
      (d, 250) = (d, 400) := by
  unfold Worker.generateVein
  rw [foldl_const_apply, List.length_range]
  rw [veinAttempt_skip_iter a vn hfl 11 6 20 d hd 50 250 (by norm_num)
    (by norm_num)]

/-- The generation pipeline, written as the composition it folds out to. -/
theorem generateChunkData_def (S H : Nat) (noise : ℚ → ℚ → ℚ) (s : Nat → ℚ)
    (fuel i0 : Nat) (cx cz : Int) :
    Worker.generateChunkData S H noise s fuel i0 cx cz
      = (Worker.generateTrees S H s
          (Worker.generateVein S H noise s (cx * S) (cz * S) 11 6 50 fuel
            (Worker.generateVein S H noise s (cx * S) (cz * S) 10 8 80 fuel
              (Worker.generateTerrain S H noise (cx * S) (cz * S) vol0, i0)))).1 :=
  rfl

/-- A full counterexample generation run: terrain, then a single coal cell
at `(vn, 1, vn)`, and no trees (every tree draw fails the 1% check). -/
theorem generateChunkData_cex (a : ℚ) (vn : Nat)
    (hfl : (⌊a * (32 : ℚ)⌋ : Int) = vn) (hvn : vn < 32) (ha : ¬ a < 1 / 100) :
    Worker.generateChunkData 32 128 (fun _ _ => -1) (cexStream a) 20 0 0 0
      = vwrite (Worker.generateTerrain 32 128 (fun _ _ => -1) 0 0 vol0)
          (gIdx 32 128 vn 1 vn) 10 := by
  rw [generateChunkData_def]
  rw [zero_mul]
  rw [generateVein_coal_cex a vn hfl hvn _ (terrain_const_neg_one_stone vn hvn)]
  rw [generateVein_iron_cex a vn hfl _ (by rw [vwrite_self]; norm_num)]
  rw [generateTrees_fst 32 128 (cexStream a)
    (fun n => by
      simp only [cexStream]
      split_ifs with h1 h2 h3
      · norm_num
      · norm_num
      · norm_num
      · exact ha)]

/-- C2 counterexample: two runs of the full generation of chunk `(0,0)`
with the same seed (the same sampler) but different ambient `Math.random()`
streams produce different volumes — the source draws its ore and tree
randomness from an unseeded RNG. -/
theorem c2_counterexample :
    Worker.generateChunkData 32 128 (fun _ _ => -1) (cexStream (9 / 10)) 20 0 0 0
      ≠ Worker.generateChunkData 32 128 (fun _ _ => -1) (cexStream (27 / 32))
          20 0 0 0 := by
  rw [generateChunkData_cex (9 / 10) 28 (by norm_num) (by norm_num) (by norm_num),
    generateChunkData_cex (27 / 32) 27 (by norm_num) (by norm_num) (by norm_num)]
  intro h
  have h1 := congrFun h (gIdx 32 128 ((28 : Nat) : Int) 1 ((28 : Nat) : Int))
  rw [vwrite_self] at h1
  rw [vwrite_other _ _ (by norm_num [gIdx])] at h1
  rw [terrain_const_neg_one_stone 28 (by norm_num)] at h1
  norm_num at h1

/-- C2 amended: generation is a pure function of the sampler (hence of the
seed), the ambient random stream, its start cursor and the growth fuel —
two runs agreeing on all of these are byte-for-byte identical. -/
theorem c2_generation_deterministic_for_fixed_stream (S H : Nat)
    (noise : ℚ → ℚ → ℚ) (s1 s2 : Nat → ℚ) (fuel i0 : Nat) (cx cz : Int)
    (h : ∀ n, s1 n = s2 n) :
    Worker.generateChunkData S H noise s1 fuel i0 cx cz
      = Worker.generateChunkData S H noise s2 fuel i0 cx cz := by
  rw [funext h]

/-- Witness for the amended C2 at a concrete sampler and stream. -/
theorem c2_generation_deterministic_witness :
    (∀ n : Nat, (fun _ : Nat => (0 : ℚ)) n = (fun _ : Nat => (0 : ℚ)) n) ∧
      Worker.generateChunkData 32 128 (fun _ _ => -1) (fun _ => 0) 20 0 0 0
        = Worker.generateChunkData 32 128 (fun _ _ => -1) (fun _ => 0) 20 0 0 0 :=
  ⟨fun _ => rfl,
    c2_generation_deterministic_for_fixed_stream 32 128 (fun _ _ => -1)
      (fun _ => 0) (fun _ => 0) 20 0 0 0 (fun _ => rfl)⟩

/-! ### The `World` class of `ChunkGenerationQueue.ts` (second document):
residency map, dirty set, block accessors, surface query, mesh extraction
and eviction. -/

/-- The in-memory state of `World` that the block operations touch:
`chunksData` (a JS `Map` from chunk key to volume, as an association list
in insertion order) and `dirtyChunks` (a JS `Set` of keys). -/
structure WState where
  chunksData : List ((Int × Int) × Vol)
  dirtyChunks : Finset (Int × Int)

namespace World

/-- `World.getBlock` (lines 1758-1774): chunk lookup first (absent chunk
reads as `AIR`), then the `y` range check, then the volume read. -/
def getBlock (w : WState) (x y z : Int) : Nat :=
  let cx := Int.fdiv x 32
  let cz := Int.fdiv z 32
  match alookup w.chunksData (cx, cz) with
  | none => 0
  | some data =>
    let localX := x - cx * 32
    let localZ := z - cz * 32
    let localY := y
    if localY < 0 ∨ localY ≥ 128 then 0
    else data (gIdx 32 128 localX localY localZ)

/-- `World.hasBlock` (lines 1680-1697): like `getBlock`, comparing against
`AIR`. -/
def hasBlock (w : WState) (x y z : Int) : Bool :=
  let cx := Int.fdiv x 32
  let cz := Int.fdiv z 32
  match alookup w.chunksData (cx, cz) with
  | none => false
  | some data =>
    let localX := x - cx * 32
    let localZ := z - cz * 32
    let localY := y
    if localY < 0 ∨ localY ≥ 128 then false
    else data (gIdx 32 128 localX localY localZ) != 0

/-- The data-and-dirty mutation of `World.setBlock` (lines 1776-1792):
absent chunk and out-of-range `y` are no-ops; otherwise the byte is stored
in place and the owning key marked dirty. (`ChunkDataManager.setBlock`,
which the `ChunkLoader` facade delegates to, is this same operation; its
file is not in the source tree, and the spec §4.G specifies exactly this
behaviour.) -/
def setBlockData (w : WState) (x y z : Int) (t : Nat) : WState :=
  let cx := Int.fdiv x 32
  let cz := Int.fdiv z 32
  match alookup w.chunksData (cx, cz) with
  | none => w
  | some data =>
    let localX := x - cx * 32
    let localZ := z - cz * 32
    let localY := y
    if localY < 0 ∨ localY ≥ 128 then w
    else
      { chunksData := aset w.chunksData (cx, cz)
          (vwrite data (gIdx 32 128 localX localY localZ) t),
        dirtyChunks := insert (cx, cz) w.dirtyChunks }

/-- `World.setBlock` in full (lines 1776-1819): the mutation plus the list
of chunk keys whose mesh is regenerated inline (`updateChunkMesh` is
invoked on the owning key and, at local coordinate 0 or 31, on the touched
neighbours). -/
def setBlock (w : WState) (x y z : Int) (t : Nat) : WState × List (Int × Int) :=
  let cx := Int.fdiv x 32
  let cz := Int.fdiv z 32
  match alookup w.chunksData (cx, cz) with
  | none => (w, [])
  | some data =>
    let localX := x - cx * 32
    let localZ := z - cz * 32
    let localY := y
    if localY < 0 ∨ localY ≥ 128 then (w, [])
    else
      ({ chunksData := aset w.chunksData (cx, cz)
            (vwrite data (gIdx 32 128 localX localY localZ) t),
         dirtyChunks := insert (cx, cz) w.dirtyChunks },
       [(cx, cz)]
         ++ (if localX = 0 then [(cx - 1, cz)] else [])
         ++ (if localX = 31 then [(cx + 1, cz)] else [])
         ++ (if localZ = 0 then [(cx, cz - 1)] else [])
         ++ (if localZ = 31 then [(cx, cz + 1)] else []))

/-- `World.getTerrainHeight` (lines 1882-1892): the terrain formula with
both clamps. -/
def getTerrainHeight (noise : ℚ → ℚ → ℚ) (worldX worldZ : Int) : Int :=
  let noiseValue := noise ((worldX : ℚ) / 50) ((worldZ : ℚ) / 50)
  let height := ⌊noiseValue * 8⌋ + 20
  let height2 := if height < 1 then 1 else height
  if height2 ≥ 128 then 127 else height2

/-- The downward scan of `World.getTopY` (lines 1630-1637); the counter is
the number of layers left above the scan position, so `topScan d lx lz 128`
starts at `y = 127`. The fall-through result is 0. -/
def topScan (data : Vol) (lx lz : Int) : Nat → Int
  | 0 => 0
  | n + 1 =>
    if data (gIdx 32 128 lx n lz) ≠ 0 then (n : Int)
    else topScan data lx lz n

/-- `World.getTopY` (lines 1619-1638): scan the resident column from the
top; fall back to the terrain formula when the chunk is not resident. -/
def getTopY (noise : ℚ → ℚ → ℚ) (w : WState) (worldX worldZ : Int) : Int :=
  let cx := Int.fdiv worldX 32
  let cz := Int.fdiv worldZ 32
  match alookup w.chunksData (cx, cz) with
  | none => getTerrainHeight noise worldX worldZ
  | some data =>
    topScan data (worldX - cx * 32) (worldZ - cz * 32) 128

end World

/-- Replacing the volume under a key is visible to a subsequent lookup of
that key. -/
theorem alookup_aset_self (k : Int × Int) (v : Vol) :
    ∀ (l : List ((Int × Int) × Vol)) (w : Vol), alookup l k = some w →
      alookup (aset l k v) k = some v := by
  intro l
  induction l with
  | nil => intro w h; simp [alookup] at h
  | cons p rest ih =>
    intro w h
    simp only [aset, List.map_cons]
    by_cases hk : p.1 = k
    · rw [if_pos hk]
      simp [alookup]
    · rw [if_neg hk]
      simp only [alookup, if_neg hk] at h
      simp only [alookup, if_neg hk]
      exact ih w h

/-! ### The `ChunkLoader` facade of the rebuild pipeline -/

/-- The state the `ChunkLoader` edit path touches: the data manager's
residency and dirty set (see `World.setBlockData`) and the batched
`pendingMeshRebuilds` set. -/
structure LState where
  world : WState
  pendingMeshRebuilds : Finset (Int × Int)

namespace ChunkLoader

/-- `ChunkLoader.setBlock` (part_006, lines 194-211): write through the
data manager, then add the owning chunk key — and, for an edit at local
coordinate 0 or 31, the adjacent key of each touched face — to the batched
rebuild set. The additions are unconditional, mirroring the source. -/
def setBlock (l : LState) (x y z : Int) (t : Nat) : LState :=
  let world := World.setBlockData l.world x y z t
  let cx := Int.fdiv x 32
  let cz := Int.fdiv z 32
  let r0 := insert (cx, cz) l.pendingMeshRebuilds
  let localX := x - cx * 32
  let localZ := z - cz * 32
  let r1 := if localX = 0 then insert (cx - 1, cz) r0 else r0
  let r2 := if localX = 31 then insert (cx + 1, cz) r1 else r1
  let r3 := if localZ = 0 then insert (cx, cz - 1) r2 else r2
  let r4 := if localZ = 31 then insert (cx, cz + 1) r3 else r3
  ⟨world, r4⟩

/-- `ChunkLoader.getBlock` (part_006, line 186) delegates to the data
manager's read, which is `World.getBlock`. -/
def getBlock (l : LState) (x y z : Int) : Nat :=
  World.getBlock l.world x y z

end ChunkLoader

/-! ### C1, C5, C7, C10: the edit pipeline -/

/-- C1 counterexample: the claim fails as stated at three explicit inputs —
a coordinate whose owning chunk is not resident (the write is silently
dropped), a resident chunk with `y = -1` (no-op), and a resident chunk
with the non-byte id 300 (stored truncated to 44). -/
theorem c1_counterexample :
    ¬ (ChunkLoader.getBlock (ChunkLoader.setBlock ⟨⟨[], ∅⟩, ∅⟩ 0 0 0 3) 0 0 0 = 3 ∧
        ((0, 0) : Int × Int)
          ∈ (ChunkLoader.setBlock ⟨⟨[], ∅⟩, ∅⟩ 0 0 0 3).world.dirtyChunks ∧
        ((0, 0) : Int × Int)
          ∈ (ChunkLoader.setBlock ⟨⟨[], ∅⟩, ∅⟩ 0 0 0 3).pendingMeshRebuilds) ∧
      ¬ (ChunkLoader.getBlock
          (ChunkLoader.setBlock ⟨⟨[((0, 0), vol0)], ∅⟩, ∅⟩ 0 (-1) 0 3)
          0 (-1) 0 = 3) ∧
      ¬ (ChunkLoader.getBlock
          (ChunkLoader.setBlock ⟨⟨[((0, 0), vol0)], ∅⟩, ∅⟩ 0 5 0 300)
          0 5 0 = 300) := by
  refine ⟨?_, ?_, ?_⟩
  · intro h
    have h1 := h.1
    simp [ChunkLoader.getBlock, ChunkLoader.setBlock, World.setBlockData,
      World.getBlock, alookup] at h1
  · intro h
    simp [ChunkLoader.getBlock, ChunkLoader.setBlock, World.setBlockData,
      World.getBlock, alookup, vol0] at h
  · intro h
    simp [ChunkLoader.getBlock, ChunkLoader.setBlock, World.setBlockData,
      World.getBlock, alookup, aset, vwrite, gIdx, vol0] at h

/-- C1 amended: provided the owning chunk is resident, `0 ≤ y < H`, and the
block id is a byte, `set_block` makes `get_block` return `t` and puts the
owning key in the dirty set and in the pending-rebuild set. -/
theorem c1_set_then_get (l : LState) (x y z : Int) (t : Nat) (data : Vol)
    (hres : alookup l.world.chunksData (Int.fdiv x 32, Int.fdiv z 32) = some data)
    (hy0 : 0 ≤ y) (hy : y < 128) (ht : t < 256) :
    ChunkLoader.getBlock (ChunkLoader.setBlock l x y z t) x y z = t ∧
      (Int.fdiv x 32, Int.fdiv z 32)
        ∈ (ChunkLoader.setBlock l x y z t).world.dirtyChunks ∧
      (Int.fdiv x 32, Int.fdiv z 32)
        ∈ (ChunkLoader.setBlock l x y z t).pendingMeshRebuilds := by
  unfold ChunkLoader.setBlock ChunkLoader.getBlock World.setBlockData
    World.getBlock
  dsimp only
  rw [hres]
  dsimp only
  rw [if_neg (by omega)]
  refine ⟨?_, ?_, ?_⟩
  · dsimp only
    rw [alookup_aset_self _ _ _ data hres]
    dsimp only
    rw [if_neg (by omega), vwrite_self, Nat.mod_eq_of_lt ht]
  · exact Finset.mem_insert_self _ _
  · dsimp only
    split_ifs <;>
      simp [Finset.mem_insert_self, Finset.mem_insert_of_mem]

/-- Witness for `c1_set_then_get` on a one-chunk state. -/
theorem c1_set_then_get_witness :
    alookup (⟨⟨[((0, 0), vol0)], ∅⟩, ∅⟩ : LState).world.chunksData
        (Int.fdiv 1 32, Int.fdiv 3 32) = some vol0 ∧
      (0 : Int) ≤ 2 ∧ (2 : Int) < 128 ∧ 7 < 256 ∧
      (ChunkLoader.getBlock
          (ChunkLoader.setBlock ⟨⟨[((0, 0), vol0)], ∅⟩, ∅⟩ 1 2 3 7) 1 2 3 = 7 ∧
        (Int.fdiv 1 32, Int.fdiv 3 32)
          ∈ (ChunkLoader.setBlock ⟨⟨[((0, 0), vol0)], ∅⟩, ∅⟩ 1 2 3 7).world.dirtyChunks ∧
        (Int.fdiv 1 32, Int.fdiv 3 32)
          ∈ (ChunkLoader.setBlock ⟨⟨[((0, 0), vol0)], ∅⟩, ∅⟩ 1 2 3 7).pendingMeshRebuilds) :=
  ⟨rfl, by norm_num, by norm_num, by norm_num,
    c1_set_then_get ⟨⟨[((0, 0), vol0)], ∅⟩, ∅⟩ 1 2 3 7 vol0 rfl (by norm_num)
      (by norm_num) (by norm_num)⟩

/-- C5: for `y` outside `[0, H)` reads return `AIR`/`false` and the write
is a no-op that leaves the state unchanged and regenerates no mesh. -/
theorem c5_y_out_of_range (w : WState) (x y z : Int) (t : Nat)
    (hy : y < 0 ∨ 128 ≤ y) :
    World.getBlock w x y z = 0 ∧ World.hasBlock w x y z = false ∧
      World.setBlock w x y z t = (w, []) := by
  unfold World.getBlock World.hasBlock World.setBlock
  dsimp only
  cases halookup : alookup w.chunksData (Int.fdiv x 32, Int.fdiv z 32) with
  | none => exact ⟨rfl, rfl, rfl⟩
  | some data =>
    dsimp only
    rw [if_pos (by omega), if_pos (by omega), if_pos (by omega)]
    exact ⟨rfl, rfl, rfl⟩

/-- Witness for `c5_y_out_of_range` at `y = -5` and at `y = 128`. -/
theorem c5_y_out_of_range_witness :
    ((-5 : Int) < 0 ∨ (128 : Int) ≤ -5) ∧
      (World.getBlock ⟨[((0, 0), vol0)], ∅⟩ 1 (-5) 3 = 0 ∧
        World.hasBlock ⟨[((0, 0), vol0)], ∅⟩ 1 (-5) 3 = false ∧
        World.setBlock ⟨[((0, 0), vol0)], ∅⟩ 1 (-5) 3 9
          = (⟨[((0, 0), vol0)], ∅⟩, [])) :=
  ⟨Or.inl (by norm_num),
    c5_y_out_of_range ⟨[((0, 0), vol0)], ∅⟩ 1 (-5) 3 9 (Or.inl (by norm_num))⟩

/-- C10: for a coordinate whose owning chunk is not resident, reads return
`AIR`/`false` and the write returns with the state unchanged — the edit is
silently dropped, not queued. -/
theorem c10_unloaded_chunk_noop (w : WState) (x y z : Int) (t : Nat)
    (hnone : alookup w.chunksData (Int.fdiv x 32, Int.fdiv z 32) = none) :
    World.getBlock w x y z = 0 ∧ World.hasBlock w x y z = false ∧
      World.setBlock w x y z t = (w, []) := by
  unfold World.getBlock World.hasBlock World.setBlock
  dsimp only
  rw [hnone]
  exact ⟨rfl, rfl, rfl⟩

/-- Witness for `c10_unloaded_chunk_noop` on the empty residency. -/
theorem c10_unloaded_chunk_noop_witness :
    alookup (⟨[], ∅⟩ : WState).chunksData (Int.fdiv 40 32, Int.fdiv 7 32) = none ∧
      (World.getBlock ⟨[], ∅⟩ 40 20 7 = 0 ∧
        World.hasBlock ⟨[], ∅⟩ 40 20 7 = false ∧
        World.setBlock ⟨[], ∅⟩ 40 20 7 3 = (⟨[], ∅⟩, [])) :=
  ⟨rfl, c10_unloaded_chunk_noop ⟨[], ∅⟩ 40 20 7 3 rfl⟩

/-- C7: every edit adds the owning chunk key to the pending-rebuild set,
and an edit at local coordinate 0 or 31 also adds the adjacent chunk key
of each touched face. -/
theorem c7_border_edit_rebuilds_neighbors (l : LState) (x y z : Int) (t : Nat) :
    (Int.fdiv x 32, Int.fdiv z 32)
        ∈ (ChunkLoader.setBlock l x y z t).pendingMeshRebuilds ∧
      (x - Int.fdiv x 32 * 32 = 0 →
        (Int.fdiv x 32 - 1, Int.fdiv z 32)
          ∈ (ChunkLoader.setBlock l x y z t).pendingMeshRebuilds) ∧
      (x - Int.fdiv x 32 * 32 = 31 →
        (Int.fdiv x 32 + 1, Int.fdiv z 32)
          ∈ (ChunkLoader.setBlock l x y z t).pendingMeshRebuilds) ∧
      (z - Int.fdiv z 32 * 32 = 0 →
        (Int.fdiv x 32, Int.fdiv z 32 - 1)
          ∈ (ChunkLoader.setBlock l x y z t).pendingMeshRebuilds) ∧
      (z - Int.fdiv z 32 * 32 = 31 →
        (Int.fdiv x 32, Int.fdiv z 32 + 1)
          ∈ (ChunkLoader.setBlock l x y z t).pendingMeshRebuilds) := by
  unfold ChunkLoader.setBlock
  dsimp only
  refine ⟨?_, ?_, ?_, ?_, ?_⟩ <;>
    [skip; intro hb; intro hb; intro hb; intro hb] <;>
    split_ifs <;>
    simp_all [Finset.mem_insert_self, Finset.mem_insert_of_mem,
      Finset.mem_insert]

/-- Witness for `c7_border_edit_rebuilds_neighbors`: the edit at world
`(0, 20, 5)` lies at local `x = 0` of chunk `(0, 0)`, so chunk `(-1, 0)` is
scheduled as well. -/
theorem c7_border_edit_rebuilds_neighbors_witness :
    ((0 : Int) - Int.fdiv 0 32 * 32 = 0) ∧
      (Int.fdiv (0 : Int) 32 - 1, Int.fdiv (5 : Int) 32)
        ∈ (ChunkLoader.setBlock ⟨⟨[((0, 0), vol0)], ∅⟩, ∅⟩ 0 20 5 0).pendingMeshRebuilds :=
  ⟨by norm_num,
    (c7_border_edit_rebuilds_neighbors ⟨⟨[((0, 0), vol0)], ∅⟩, ∅⟩ 0 20 5 0).2.1
      (by norm_num)⟩

/-! ### C6: the surface query -/

theorem getTerrainHeightWorld_eq_clamp (noise : ℚ → ℚ → ℚ) (wx wz : Int) :
    World.getTerrainHeight noise wx wz
      = min 127 (max 1 (⌊noise ((wx : ℚ) / 50) ((wz : ℚ) / 50) * 8⌋ + 20)) := by
  simp only [World.getTerrainHeight]
  split_ifs <;> omega

/-- The downward scan returns either 0 with the whole scanned column air,
or the greatest non-air height, with everything above it air. -/
theorem topScan_spec (data : Vol) (lx lz : Int) :
    ∀ n : Nat,
      (World.topScan data lx lz n = 0 ∧
        ∀ y : Nat, y < n → data (gIdx 32 128 lx y lz) = 0) ∨
      (∃ y : Nat, y < n ∧ World.topScan data lx lz n = y ∧
        data (gIdx 32 128 lx y lz) ≠ 0 ∧
        ∀ y' : Nat, y < y' → y' < n → data (gIdx 32 128 lx y' lz) = 0) := by
  intro n
  induction n with
  | zero => exact Or.inl ⟨rfl, fun y hy => absurd hy (by omega)⟩
  | succ n ih =>
    by_cases hn : data (gIdx 32 128 lx n lz) ≠ 0
    · refine Or.inr ⟨n, by omega, ?_, hn, fun y' h1 h2 => absurd h1 (by omega)⟩
      simp [World.topScan, hn]
    · have hair : data (gIdx 32 128 lx n lz) = 0 := by
        by_contra hc; exact hn hc
      have hstep : World.topScan data lx lz (n + 1) = World.topScan data lx lz n := by
        simp [World.topScan, hn]
      rcases ih with ⟨h0, hall⟩ | ⟨y, hy, heq, hnz, habove⟩
      · refine Or.inl ⟨by rw [hstep, h0], fun y hy => ?_⟩
        by_cases hyn : y < n
        · exact hall y hyn
        · have : y = n := by omega
          rw [this]; exact hair
      · refine Or.inr ⟨y, by omega, by rw [hstep, heq], hnz, fun y' h1 h2 => ?_⟩
        by_cases hyn : y' < n
        · exact habove y' h1 hyn
        · have : y' = n := by omega
          rw [this]; exact hair

/-- C6. `top_y`: on a resident chunk, the scan from `y = 127` downward
returns the first non-air height (0 if the whole column is air); on a
non-resident chunk, exactly the terrain formula's output. -/
theorem c6_top_y (noise : ℚ → ℚ → ℚ) (w : WState) (wx wz : Int) :
    (alookup w.chunksData (Int.fdiv wx 32, Int.fdiv wz 32) = none →
      World.getTopY noise w wx wz
        = min 127 (max 1 (⌊noise ((wx : ℚ) / 50) ((wz : ℚ) / 50) * 8⌋ + 20))) ∧
    (∀ data, alookup w.chunksData (Int.fdiv wx 32, Int.fdiv wz 32) = some data →
      (World.getTopY noise w wx wz = 0 ∧
        ∀ y : Nat, y < 128 →
          data (gIdx 32 128 (wx - Int.fdiv wx 32 * 32) y
            (wz - Int.fdiv wz 32 * 32)) = 0) ∨
      (∃ y : Nat, y < 128 ∧ World.getTopY noise w wx wz = y ∧
        data (gIdx 32 128 (wx - Int.fdiv wx 32 * 32) y
          (wz - Int.fdiv wz 32 * 32)) ≠ 0 ∧
        ∀ y' : Nat, y < y' → y' < 128 →
          data (gIdx 32 128 (wx - Int.fdiv wx 32 * 32) y'
            (wz - Int.fdiv wz 32 * 32)) = 0)) := by
  constructor
  · intro hnone
    unfold World.getTopY
    dsimp only
    rw [hnone]
    exact getTerrainHeightWorld_eq_clamp noise wx wz
  · intro data hsome
    have hunf : World.getTopY noise w wx wz
        = World.topScan data (wx - Int.fdiv wx 32 * 32)
            (wz - Int.fdiv wz 32 * 32) 128 := by
      unfold World.getTopY
      dsimp only
      rw [hsome]
    rw [hunf]
    exact topScan_spec data _ _ 128

/-- Witness for `c6_top_y`: a resident all-air chunk reports `top_y = 0`
with the whole column air. -/
theorem c6_top_y_witness :
    alookup (⟨[((0, 0), vol0)], ∅⟩ : WState).chunksData
        (Int.fdiv 4 32, Int.fdiv 9 32) = some vol0 ∧
      ((World.getTopY (fun _ _ => 0) ⟨[((0, 0), vol0)], ∅⟩ 4 9 = 0 ∧
        ∀ y : Nat, y < 128 →
          vol0 (gIdx 32 128 (4 - Int.fdiv 4 32 * 32) y
            (9 - Int.fdiv 9 32 * 32)) = 0) ∨
      (∃ y : Nat, y < 128 ∧
        World.getTopY (fun _ _ => 0) ⟨[((0, 0), vol0)], ∅⟩ 4 9 = y ∧
        vol0 (gIdx 32 128 (4 - Int.fdiv 4 32 * 32) y
          (9 - Int.fdiv 9 32 * 32)) ≠ 0 ∧
        ∀ y' : Nat, y < y' → y' < 128 →
          vol0 (gIdx 32 128 (4 - Int.fdiv 4 32 * 32) y'
            (9 - Int.fdiv 9 32 * 32)) = 0)) :=
  ⟨rfl, (c6_top_y (fun _ _ => 0) ⟨[((0, 0), vol0)], ∅⟩ 4 9).2 vol0 rfl⟩

/-! ### C4: occlusion-culled face emission of `World.generateChunkMesh` -/

/-- The face direction tags (`"top"`, `"bottom"`, `"front"`, `"back"`,
`"right"`, `"left"` in the source). -/
inductive Side where
  | top
  | bottom
  | front
  | back
  | right
  | left
deriving DecidableEq

/-- The neighbour offset sampled for each face direction. -/
def sideOffset : Side → Int × Int × Int
  | Side.top => (0, 1, 0)
  | Side.bottom => (0, -1, 0)
  | Side.front => (0, 0, 1)
  | Side.back => (0, 0, -1)
  | Side.right => (1, 0, 0)
  | Side.left => (-1, 0, 0)

/-- The six neighbour checks in source order. -/
def sideList : List Side :=
  [Side.top, Side.bottom, Side.front, Side.back, Side.right, Side.left]

namespace World

/-- `isTransparent` of `generateChunkMesh` (lines 2245-2247): `AIR` and
`LEAVES`. -/
def isTransparent (t : Nat) : Bool := t == 0 || t == 6

/-- `checkNeighbor` of `generateChunkMesh` (lines 2264-2300): out-of-range
`y` is sky/void (transparent); a neighbour in the current chunk reads the
local volume; a neighbour in a resident chunk reads that volume; a
neighbour in a non-resident chunk forces the face (conservative fill). -/
def checkNeighbor (w : WState) (cx cz : Int) (data : Vol)
    (nx ny nz : Int) : Bool :=
  let gx := cx * 32 + nx
  let gz := cz * 32 + nz
  let gy := ny
  if gy < 0 ∨ gy ≥ 128 then true
  else
    let ncx := Int.fdiv gx 32
    let ncz := Int.fdiv gz 32
    if ncx = cx ∧ ncz = cz then
      isTransparent (data (gIdx 32 128 nx ny nz))
    else
      match alookup w.chunksData (ncx, ncz) with
      | some nData =>
        let locX := gx - ncx * 32
        let locZ := gz - ncz * 32
        isTransparent (nData (gIdx 32 128 locX gy locZ))
      | none => true

/-- The faces emitted by the voxel loop of `generateChunkMesh`
(lines 2249-2316): for every in-range voxel that is not `AIR`, one face
per direction whose neighbour check passes. -/
def meshFaces (w : WState) (cx cz : Int) (data : Vol) :
    List (Nat × Nat × Nat × Side) :=
  (List.range 32).flatMap fun x =>
    (List.range 128).flatMap fun y =>
      (List.range 32).flatMap fun z =>
        if data (gIdx 32 128 x y z) = 0 then []
        else
          (sideList.filter fun sd =>
              checkNeighbor w cx cz data ((x : Int) + (sideOffset sd).1)
                ((y : Int) + (sideOffset sd).2.1)
                ((z : Int) + (sideOffset sd).2.2)).map
            fun sd => (x, y, z, sd)

/-- The neighbour sample as the spec describes it: `none` when the sampled
coordinate is outside the world's `y` range or its owning chunk is not
resident, otherwise the sampled block id (the current chunk reads the
borrowed volume). -/
def neighborSample (w : WState) (cx cz : Int) (data : Vol)
    (gx gy gz : Int) : Option Nat :=
  if gy < 0 ∨ 128 ≤ gy then none
  else
    let ncx := Int.fdiv gx 32
    let ncz := Int.fdiv gz 32
    if ncx = cx ∧ ncz = cz then
      some (data (gIdx 32 128 (gx - ncx * 32) gy (gz - ncz * 32)))
    else
      match alookup w.chunksData (ncx, ncz) with
      | some nData => some (nData (gIdx 32 128 (gx - ncx * 32) gy (gz - ncz * 32)))
      | none => none

/-- Transparent-for-culling, following the spec: a missing sample (chunk
not resident, or `y` out of range) counts as transparent, and a present
sample is transparent exactly for `AIR` and `LEAVES`. -/
def transparentForCulling : Option Nat → Prop
  | none => True
  | some t => t = 0 ∨ t = 6

/-- The boolean neighbour check agrees with the spec's
transparent-for-culling of the neighbour sample. -/
theorem checkNeighbor_iff (w : WState) (cx cz : Int) (data : Vol)
    (nx ny nz : Int) :
    checkNeighbor w cx cz data nx ny nz = true ↔
      transparentForCulling
        (neighborSample w cx cz data (cx * 32 + nx) ny (cz * 32 + nz)) := by
  unfold checkNeighbor neighborSample
  dsimp only
  by_cases hy : ny < 0 ∨ ny ≥ 128
  · rw [if_pos hy, if_pos (show (ny < 0 ∨ 128 ≤ ny) by omega)]
    simp [transparentForCulling]
  · rw [if_neg hy, if_neg (show ¬(ny < 0 ∨ 128 ≤ ny) by omega)]
    by_cases hc : Int.fdiv (cx * 32 + nx) 32 = cx ∧ Int.fdiv (cz * 32 + nz) 32 = cz
    · rw [if_pos hc, if_pos hc]
      have hx2 : cx * 32 + nx - Int.fdiv (cx * 32 + nx) 32 * 32 = nx := by
        rw [hc.1]; ring
      have hz2 : cz * 32 + nz - Int.fdiv (cz * 32 + nz) 32 * 32 = nz := by
        rw [hc.2]; ring
      rw [hx2, hz2]
      simp [isTransparent, transparentForCulling]
    · rw [if_neg hc, if_neg hc]
      cases halookup : alookup w.chunksData
          (Int.fdiv (cx * 32 + nx) 32, Int.fdiv (cz * 32 + nz) 32) with
      | none => simp [transparentForCulling]
      | some nData => simp [isTransparent, transparentForCulling]
end World

/-- C4. During mesh extraction a face is emitted for an in-range non-air
voxel on a given side exactly when the neighbour sample on that side is
transparent-for-culling (`AIR` or `LEAVES`), where a sample whose chunk is
not resident or whose `y` is outside `[0, H)` is treated as transparent,
so the face is emitted (conservative fill). -/
theorem c4_face_emission_iff_transparent (w : WState) (cx cz : Int)
    (data : Vol) (x y z : Nat) (sd : Side) (hx : x < 32) (hy : y < 128)
    (hz : z < 32) :
    (x, y, z, sd) ∈ World.meshFaces w cx cz data ↔
      data (gIdx 32 128 x y z) ≠ 0 ∧
        World.transparentForCulling
          (World.neighborSample w cx cz data
            (cx * 32 + ((x : Int) + (sideOffset sd).1))
            ((y : Int) + (sideOffset sd).2.1)
            (cz * 32 + ((z : Int) + (sideOffset sd).2.2))) := by
  constructor
  · intro hmem
    simp only [World.meshFaces, List.mem_flatMap, List.mem_range] at hmem
    obtain ⟨x', hx', y', hy', z', hz', hmem⟩ := hmem
    by_cases h0 : data (gIdx 32 128 x' y' z') = 0
    · rw [if_pos h0] at hmem
      simp at hmem
    · rw [if_neg h0] at hmem
      simp only [List.mem_map, List.mem_filter] at hmem
      obtain ⟨sd', ⟨hsdmem, hsdchk⟩, heq⟩ := hmem
      obtain ⟨hex, hey, hez, hesd⟩ : x' = x ∧ y' = y ∧ z' = z ∧ sd' = sd := by
        simpa [Prod.ext_iff] using heq
      subst hex; subst hey; subst hez; subst hesd
      exact ⟨h0, (World.checkNeighbor_iff w cx cz data _ _ _).mp hsdchk⟩
  · intro ⟨h0, htr⟩
    simp only [World.meshFaces, List.mem_flatMap, List.mem_range]
    refine ⟨x, hx, y, hy, z, hz, ?_⟩
    rw [if_neg h0]
    simp only [List.mem_map, List.mem_filter]
    refine ⟨sd, ⟨by cases sd <;> simp [sideList],
      (World.checkNeighbor_iff w cx cz data _ _ _).mpr htr⟩, rfl⟩

/-- Witness for `c4_face_emission_iff_transparent` at a concrete state and
cell. -/
theorem c4_face_emission_witness :
    0 < 32 ∧ 5 < 128 ∧ 0 < 32 ∧
      (((0 : Nat), (5 : Nat), (0 : Nat), Side.left)
          ∈ World.meshFaces ⟨[], ∅⟩ 0 0 vol0 ↔
        vol0 (gIdx 32 128 0 5 0) ≠ 0 ∧
          World.transparentForCulling
            (World.neighborSample ⟨[], ∅⟩ 0 0 vol0
              (0 * 32 + (((0 : Nat) : Int) + (sideOffset Side.left).1))
              (((5 : Nat) : Int) + (sideOffset Side.left).2.1)
              (0 * 32 + (((0 : Nat) : Int) + (sideOffset Side.left).2.2)))) :=
  ⟨by norm_num, by norm_num, by norm_num,
    c4_face_emission_iff_transparent ⟨[], ∅⟩ 0 0 vol0 0 5 0 Side.left
      (by norm_num) (by norm_num) (by norm_num)⟩

/-! ### C9: the eviction pass `World.checkMemory` -/

/-- Squared chunk distance from the observer chunk, as computed by the
eviction comparator. -/
def distSq (c k : Int × Int) : Int :=
  (k.1 - c.1) ^ 2 + (k.2 - c.2) ^ 2

namespace World

/-- One entry of the eviction batch loop (lines 1431-1453): a dirty entry
is handed to the store (`worldDB.set`) and un-dirtied before its removal
from residency; a clean entry is removed directly. The accumulator is
`(chunksData, dirtyChunks, saved-writes)`. -/
def evictStep
    (acc : List ((Int × Int) × Vol) × Finset (Int × Int) × List ((Int × Int) × Vol))
    (entry : (Int × Int) × Vol) :
    List ((Int × Int) × Vol) × Finset (Int × Int) × List ((Int × Int) × Vol) :=
  let saved2 := if entry.1 ∈ acc.2.1 then acc.2.2 ++ [entry] else acc.2.2
  let dirty2 := if entry.1 ∈ acc.2.1 then acc.2.1.erase entry.1 else acc.2.1
  (adel acc.1 entry.1, dirty2, saved2)

/-- The eviction comparator: `distB - distA`, i.e. sort by descending
squared distance from the observer chunk `c`. -/
def evictOrder (c : Int × Int) (p q : (Int × Int) × Vol) : Prop :=
  distSq c q.1 ≤ distSq c p.1

instance (c : Int × Int) : DecidableRel (evictOrder c) :=
  fun p q => Int.decLe _ _

/-- The batch of the eviction pass: the 50 farthest resident entries. -/
def evictBatch (w : WState) (c : Int × Int) : List ((Int × Int) × Vol) :=
  (List.insertionSort (evictOrder c) w.chunksData).take 50

/-- The body of `World.checkMemory` past the soft-cap guard. -/
def checkMemoryGo (w : WState) (c : Int × Int) :
    WState × List ((Int × Int) × Vol) × List (Int × Int) :=
  let res := (evictBatch w c).foldl evictStep (w.chunksData, w.dirtyChunks, [])
  (⟨res.1, res.2.1⟩, res.2.2, (evictBatch w c).map Prod.fst)

/-- `World.checkMemory` (lines 1410-1455): above the 500-chunk soft cap,
sort residency by descending squared distance from the observer chunk and
process the first 50 entries with `evictStep`. Besides the new state it
returns the issued store writes and the removed keys. -/
def checkMemory (w : WState) (px pz : ℚ) :
    WState × List ((Int × Int) × Vol) × List (Int × Int) :=
  if w.chunksData.length ≤ 500 then (w, [], [])
  else checkMemoryGo w (⌊px / 32⌋, ⌊pz / 32⌋)

end World

/-- An entry whose key is hit by no batch entry survives the whole batch
fold. -/
theorem evict_fold_stays (k : Int × Int) (v : Vol) :
    ∀ (batch : List ((Int × Int) × Vol))
      (acc : List ((Int × Int) × Vol) × Finset (Int × Int) × List ((Int × Int) × Vol)),
      (k, v) ∈ acc.1 → (∀ e ∈ batch, e.1 ≠ k) →
      (k, v) ∈ (batch.foldl World.evictStep acc).1 := by
  intro batch
  induction batch with
  | nil => intro acc h _; exact h
  | cons e batch ih =>
    intro acc h hne
    rw [List.foldl_cons]
    refine ih _ ?_ (fun e' he' => hne e' (List.mem_cons_of_mem _ he'))
    simp only [World.evictStep, adel, List.mem_filter]
    exact ⟨h, by
      simp only [decide_eq_true_eq]
      exact fun hc => hne e (List.mem_cons_self e batch) (hc ▸ rfl)⟩

/-- The saved list only grows along the batch fold. -/
theorem evict_fold_saved_mono (p : (Int × Int) × Vol) :
    ∀ (batch : List ((Int × Int) × Vol))
      (acc : List ((Int × Int) × Vol) × Finset (Int × Int) × List ((Int × Int) × Vol)),
      p ∈ acc.2.2 → p ∈ (batch.foldl World.evictStep acc).2.2 := by
  intro batch
  induction batch with
  | nil => intro acc h; exact h
  | cons e batch ih =>
    intro acc h
    rw [List.foldl_cons]
    refine ih _ ?_
    simp only [World.evictStep]
    split_ifs <;> simp [h]

/-- A batch entry that is dirty when reached is appended to the saved
list. -/
theorem evict_fold_dirty_saved (k : Int × Int) (v : Vol) :
    ∀ (batch : List ((Int × Int) × Vol))
      (acc : List ((Int × Int) × Vol) × Finset (Int × Int) × List ((Int × Int) × Vol)),
      (k, v) ∈ batch → (batch.map Prod.fst).Nodup → k ∈ acc.2.1 →
      (k, v) ∈ (batch.foldl World.evictStep acc).2.2 := by
  intro batch
  induction batch with
  | nil => intro acc h _ _; simp at h
  | cons e batch ih =>
    intro acc hmem hnodup hdirty
    rw [List.foldl_cons]
    rcases List.mem_cons.mp hmem with heq | htail
    · subst heq
      apply evict_fold_saved_mono
      simp only [World.evictStep, if_pos hdirty]
      simp
    · have hke : e.1 ≠ k := by
        intro hc
        have : k ∈ batch.map Prod.fst :=
          List.mem_map.mpr ⟨(k, v), htail, rfl⟩
        rw [List.map_cons, List.nodup_cons] at hnodup
        exact hnodup.1 (hc ▸ this)
      refine ih _ htail (by
        rw [List.map_cons, List.nodup_cons] at hnodup
        exact hnodup.2) ?_
      simp only [World.evictStep]
      split_ifs with hd
      · exact Finset.mem_erase.mpr ⟨fun hc => hke hc.symm, hdirty⟩
      · exact hdirty

/-- A key never dirty along the fold is never saved. -/
theorem evict_fold_clean_not_saved (k : Int × Int) :
    ∀ (batch : List ((Int × Int) × Vol))
      (acc : List ((Int × Int) × Vol) × Finset (Int × Int) × List ((Int × Int) × Vol)),
      k ∉ acc.2.1 → (∀ v, (k, v) ∉ acc.2.2) →
      ∀ v, (k, v) ∉ (batch.foldl World.evictStep acc).2.2 := by
  intro batch
  induction batch with
  | nil => intro acc _ h v; exact h v
  | cons e batch ih =>
    intro acc hdirty hsaved
    rw [List.foldl_cons]
    refine ih _ ?_ ?_
    · simp only [World.evictStep]
      split_ifs with hd
      · exact fun hc => hdirty (Finset.mem_of_mem_erase hc)
      · exact hdirty
    · intro v
      simp only [World.evictStep]
      split_ifs with hd
      · intro hc
        rcases List.mem_append.mp hc with hold | hnew
        · exact hsaved v hold
        · have he : e = (k, v) := by
            have := hnew
            simp only [List.mem_singleton] at this
            exact this.symm
          rw [he] at hd
          exact hdirty hd
      · exact hsaved v

/-- A present key is found by `alookup`. -/
theorem alookup_ne_none_of_mem (k : Int × Int) (v : Vol) :
    ∀ l : List ((Int × Int) × Vol), (k, v) ∈ l → alookup l k ≠ none := by
  intro l
  induction l with
  | nil => intro h; simp at h
  | cons p rest ih =>
    intro hmem
    rcases List.mem_cons.mp hmem with heq | htail
    · subst heq
      simp [alookup]
    · by_cases hk : p.1 = k
      · simp [alookup, hk]
      · simp only [alookup, if_neg hk]
        exact ih htail

/-- In a list with duplicate-free keys, the value under a key is unique. -/
theorem mem_keys_nodup_eq (k : Int × Int) (v v' : Vol) :
    ∀ l : List ((Int × Int) × Vol), (l.map Prod.fst).Nodup →
      (k, v) ∈ l → (k, v') ∈ l → v = v' := by
  intro l
  induction l with
  | nil => intro _ h; simp at h
  | cons p rest ih =>
    intro hnodup h1 h2
    rw [List.map_cons, List.nodup_cons] at hnodup
    rcases List.mem_cons.mp h1 with he1 | ht1 <;>
      rcases List.mem_cons.mp h2 with he2 | ht2
    · rw [← he1] at he2
      exact (congrArg Prod.snd he2).symm
    · exact absurd (List.mem_map.mpr ⟨(k, v'), ht2, by rw [← he1]⟩) hnodup.1
    · exact absurd (List.mem_map.mpr ⟨(k, v), ht1, by rw [← he2]⟩) hnodup.1
    · exact ih hnodup.2 ht1 ht2

/-- C9. The eviction pass runs only above the 500-chunk soft cap and
touches at most 50 chunks; a dirty chunk is never removed from residency
without its exact volume first being handed to the persistent store, and a
non-dirty chunk is dropped without any store write. -/
theorem c9_eviction_persists_dirty (w : WState) (px pz : ℚ)
    (hnodup : (w.chunksData.map Prod.fst).Nodup) :
    (w.chunksData.length ≤ 500 → World.checkMemory w px pz = (w, [], [])) ∧
      (∀ k v, (k, v) ∈ w.chunksData →
        alookup (World.checkMemory w px pz).1.chunksData k = none →
        k ∈ w.dirtyChunks →
        (k, v) ∈ (World.checkMemory w px pz).2.1) ∧
      (∀ k, k ∉ w.dirtyChunks →
        ∀ v, (k, v) ∉ (World.checkMemory w px pz).2.1) ∧
      (World.checkMemory w px pz).2.2.length ≤ 50 := by
  by_cases hlen : w.chunksData.length ≤ 500
  · have hcm : World.checkMemory w px pz = (w, [], []) := by
      unfold World.checkMemory
      rw [if_pos hlen]
    refine ⟨fun _ => hcm, ?_, ?_, ?_⟩
    · intro k v hmem hnone _
      rw [hcm] at hnone
      exact absurd hnone (alookup_ne_none_of_mem k v _ hmem)
    · intro k _ v
      rw [hcm]
      simp
    · rw [hcm]
      simp
  · have hcm : World.checkMemory w px pz
        = World.checkMemoryGo w (⌊px / 32⌋, ⌊pz / 32⌋) := by
      unfold World.checkMemory
      rw [if_neg hlen]
    have hperm : List.Perm (List.insertionSort
        (World.evictOrder (⌊px / 32⌋, ⌊pz / 32⌋)) w.chunksData) w.chunksData :=
      List.perm_insertionSort _ _
    have hkeys : ((List.insertionSort (World.evictOrder (⌊px / 32⌋, ⌊pz / 32⌋))
        w.chunksData).map Prod.fst).Nodup :=
      ((hperm.map Prod.fst).nodup_iff).mpr hnodup
    have hbn : ((World.evictBatch w (⌊px / 32⌋, ⌊pz / 32⌋)).map Prod.fst).Nodup := by
      unfold World.evictBatch
      rw [List.map_take]
      exact (List.take_sublist _ _).nodup hkeys
    refine ⟨fun hc => absurd hc hlen, ?_, ?_, ?_⟩
    · intro k v hmem hnone hdirty
      rw [hcm] at hnone ⊢
      unfold World.checkMemoryGo at hnone ⊢
      dsimp only at hnone ⊢
      by_cases hbatch : ∀ e ∈ World.evictBatch w (⌊px / 32⌋, ⌊pz / 32⌋), e.1 ≠ k
      · exact absurd hnone (alookup_ne_none_of_mem k v _
          (evict_fold_stays k v _ (w.chunksData, w.dirtyChunks, []) hmem hbatch))
      · push_neg at hbatch
        obtain ⟨e, hebatch, hek⟩ := hbatch
        have hmem2 : (k, e.2) ∈ w.chunksData := by
          rw [← hek]
          exact hperm.subset (List.take_subset _ _ hebatch)
        have hv : v = e.2 := mem_keys_nodup_eq k v e.2 w.chunksData hnodup hmem hmem2
        have hkv : (k, v) ∈ World.evictBatch w (⌊px / 32⌋, ⌊pz / 32⌋) := by
          rw [hv, ← hek]
          exact hebatch
        exact evict_fold_dirty_saved k v _ (w.chunksData, w.dirtyChunks, [])
          hkv hbn hdirty
    · intro k hk v
      rw [hcm]
      unfold World.checkMemoryGo
      dsimp only
      exact evict_fold_clean_not_saved k _ (w.chunksData, w.dirtyChunks, []) hk
        (fun v => by simp) v
    · rw [hcm]
      unfold World.checkMemoryGo
      dsimp only
      simp only [List.length_map, World.evictBatch, List.length_take]
      omega

/-- A 501-chunk residency (above the soft cap) whose farthest chunk
`(500, 0)` is dirty. -/
def evictSampleState : WState :=
  ⟨(List.range 501).map (fun i : Nat => ((((i : Int), (0 : Int)) : Int × Int), vol0)),
    {((500 : Int), 0)}⟩

section
attribute [local semireducible] Rat.mul Rat.add Rat.sub Rat.inv

set_option maxRecDepth 100000 in
set_option maxHeartbeats 4000000 in
/-- Witness for `c9_eviction_persists_dirty`: on `evictSampleState` the
pass evicts the dirty chunk `(500, 0)` and its volume appears in the
issued store writes. -/
theorem c9_eviction_persists_dirty_witness :
    (evictSampleState.chunksData.map Prod.fst).Nodup ∧
      ((((500 : Int), (0 : Int)) : Int × Int), vol0) ∈ evictSampleState.chunksData ∧
      alookup (World.checkMemory evictSampleState 0 0).1.chunksData
        ((500 : Int), 0) = none ∧
      (((500 : Int), (0 : Int)) : Int × Int) ∈ evictSampleState.dirtyChunks ∧
      ((((500 : Int), (0 : Int)) : Int × Int), vol0)
        ∈ (World.checkMemory evictSampleState 0 0).2.1 := by
  have hkeyseq : evictSampleState.chunksData.map Prod.fst
      = (List.range 501).map (fun i : Nat => ((((i : Int), (0 : Int))) : Int × Int)) := by
    rw [show evictSampleState.chunksData
        = (List.range 501).map
            (fun i : Nat => ((((i : Int), (0 : Int)) : Int × Int), vol0))
        from rfl, List.map_map]
    rfl
  have hnodup : (evictSampleState.chunksData.map Prod.fst).Nodup := by
    rw [hkeyseq]
    exact List.Nodup.map (fun a b h => by simpa using h) (List.nodup_range 501)
  have hmem : ((((500 : Int), (0 : Int)) : Int × Int), vol0)
      ∈ evictSampleState.chunksData := by
    refine List.mem_map.mpr ⟨500, List.mem_range.mpr (by norm_num), rfl⟩
  have hnone : alookup (World.checkMemory evictSampleState 0 0).1.chunksData
      ((500 : Int), 0) = none := rfl
  have hdirty : (((500 : Int), (0 : Int)) : Int × Int)
      ∈ evictSampleState.dirtyChunks := Finset.mem_singleton_self _
  exact ⟨hnodup, hmem, hnone, hdirty,
    (c9_eviction_persists_dirty evictSampleState 0 0 hnodup).2.1
      ((500 : Int), 0) vol0 hmem hnone hdirty⟩
end

/-! ### C8: the `ChunkGenerationQueue` -/

/-- A queue entry (`ChunkQueueItem`). -/
structure QItem where
  cx : Int
  cz : Int
  priority : Int
deriving DecidableEq

/-- The comparator `a.priority - b.priority`: ascending priority. -/
def qle (a b : QItem) : Prop := a.priority ≤ b.priority

instance : DecidableRel qle := fun a b => Int.decLe a.priority b.priority

instance : IsTotal QItem qle := ⟨fun a b => le_total a.priority b.priority⟩

instance : IsTrans QItem qle := ⟨fun _ _ _ hab hbc => le_trans hab hbc⟩

/-- The queue's mutable state: the sorted `queue` array, `pendingChunks`
and `generatingChunks`. -/
structure QState where
  queue : List QItem
  pending : Finset (Int × Int)
  generating : Finset (Int × Int)

namespace ChunkGenerationQueue

/-- `maxConcurrent` (line 20). -/
def maxConcurrent : Nat := 2

/-- `enqueue` (lines 73-83): dedup against pending and in-flight, push,
sort by priority. -/
def enqueue (s : QState) (cx cz priority : Int) : QState :=
  if (cx, cz) ∈ s.pending ∨ (cx, cz) ∈ s.generating then s
  else
    { queue := List.insertionSort qle (s.queue ++ [⟨cx, cz, priority⟩]),
      pending := insert (cx, cz) s.pending,
      generating := s.generating }

/-- The `while` loop of `process` (lines 100-122). `persist` and `loading`
stand for `persistence.hasChunk` and `persistence.isLoading`, `useWorkers`
for worker availability. Every dispatched item moves from pending into
in-flight; the already-loading persistence path and the synchronous
fallback remove it from in-flight again before the loop continues, while
the worker and fresh-load paths leave it in flight until completion. The
final component lists the dispatched items in dispatch order. -/
def processGo (persist loading : (Int × Int) → Bool) (useWorkers : Bool) :
    List QItem → Finset (Int × Int) → Finset (Int × Int) →
      List QItem × Finset (Int × Int) × Finset (Int × Int) × List QItem
  | [], p, g => ([], p, g, [])
  | it :: rest, p, g =>
    if g.card < maxConcurrent then
      let k := (it.cx, it.cz)
      let p' := p.erase k
      let g' := insert k g
      let g2 := if (persist k && loading k) || (!persist k && !useWorkers)
        then g'.erase k else g'
      let r := processGo persist loading useWorkers rest p' g2
      (r.1, r.2.1, r.2.2.1, it :: r.2.2.2)
    else (it :: rest, p, g, [])

/-- `process` (lines 96-123), returning the new state and the dispatched
items. -/
def process (persist loading : (Int × Int) → Bool) (useWorkers : Bool)
    (s : QState) : QState × List QItem :=
  let r := processGo persist loading useWorkers s.queue s.pending s.generating
  (⟨r.1, r.2.1, r.2.2.1⟩, r.2.2.2)

/-- A worker or load completion: `generatingChunks.delete(key)`. -/
def complete (s : QState) (k : Int × Int) : QState :=
  { s with generating := s.generating.erase k }

/-- `clear` (lines 230-235). -/
def clear (_ : QState) : QState := ⟨[], ∅, ∅⟩

end ChunkGenerationQueue

/-- The externally driven events of the queue. -/
inductive QEvent where
  | enqueue (cx cz priority : Int)
  | process (persist loading : (Int × Int) → Bool) (useWorkers : Bool)
  | complete (k : Int × Int)
  | clear

/-- One event applied to the queue state. -/
def qstep (s : QState) (e : QEvent) : QState :=
  match e with
  | QEvent.enqueue cx cz p => ChunkGenerationQueue.enqueue s cx cz p
  | QEvent.process pf lf uw => (ChunkGenerationQueue.process pf lf uw s).1
  | QEvent.complete k => ChunkGenerationQueue.complete s k
  | QEvent.clear => ChunkGenerationQueue.clear s

/-- The fresh queue. -/
def qinit : QState := ⟨[], ∅, ∅⟩

/-- The state after a sequence of events. -/
def qrun (evs : List QEvent) : QState := evs.foldl qstep qinit

/-- The queue invariant: pending and in-flight are disjoint, at most
`maxConcurrent = 2` keys are in flight, and the queue is priority
sorted. -/
def QInv (s : QState) : Prop :=
  Disjoint s.pending s.generating ∧ s.generating.card ≤ 2 ∧
    List.Sorted qle s.queue

/-- The dispatched prefix plus the remaining queue is the original
queue. -/
theorem processGo_append (pf lf : (Int × Int) → Bool) (uw : Bool) :
    ∀ (q : List QItem) (p g : Finset (Int × Int)),
      (ChunkGenerationQueue.processGo pf lf uw q p g).2.2.2
          ++ (ChunkGenerationQueue.processGo pf lf uw q p g).1 = q := by
  intro q
  induction q with
  | nil => intro p g; rfl
  | cons it rest ih =>
    intro p g
    simp only [ChunkGenerationQueue.processGo]
    split_ifs with h1 h2
    · dsimp only
      rw [List.cons_append, ih]
    · dsimp only
      rw [List.cons_append, ih]
    · rfl

/-- The dispatch loop keeps pending and in-flight disjoint and the
in-flight population at most 2. -/
theorem processGo_inv (pf lf : (Int × Int) → Bool) (uw : Bool) :
    ∀ (q : List QItem) (p g : Finset (Int × Int)),
      Disjoint p g → g.card ≤ 2 →
      Disjoint (ChunkGenerationQueue.processGo pf lf uw q p g).2.1
          (ChunkGenerationQueue.processGo pf lf uw q p g).2.2.1 ∧
        (ChunkGenerationQueue.processGo pf lf uw q p g).2.2.1.card ≤ 2 := by
  intro q
  induction q with
  | nil => intro p g hd hc; exact ⟨hd, hc⟩
  | cons it rest ih =>
    intro p g hd hc
    have hd2 : Disjoint (p.erase (it.cx, it.cz)) (insert (it.cx, it.cz) g) := by
      rw [Finset.disjoint_left]
      intro x hx hmem
      have hxp : x ∈ p := Finset.mem_of_mem_erase hx
      have hxk : x ≠ (it.cx, it.cz) := (Finset.mem_erase.mp hx).1
      rcases Finset.mem_insert.mp hmem with hxk2 | hxg
      · exact hxk hxk2
      · exact (Finset.disjoint_left.mp hd) hxp hxg
    simp only [ChunkGenerationQueue.processGo]
    split_ifs with hcard hb
    · dsimp only
      refine ih _ _ ?_ ?_
      · rw [Finset.disjoint_left]
        intro x hx hmem
        exact (Finset.disjoint_left.mp hd2) hx (Finset.mem_of_mem_erase hmem)
      · refine le_trans Finset.card_erase_le ?_
        have := Finset.card_insert_le (it.cx, it.cz) g
        unfold ChunkGenerationQueue.maxConcurrent at hcard
        omega
    · dsimp only
      refine ih _ _ hd2 ?_
      have := Finset.card_insert_le (it.cx, it.cz) g
      unfold ChunkGenerationQueue.maxConcurrent at hcard
      omega
    · exact ⟨hd, hc⟩

/-- Every event preserves the queue invariant. -/
theorem qstep_inv (s : QState) (e : QEvent) (h : QInv s) : QInv (qstep s e) := by
  obtain ⟨hd, hc, hs⟩ := h
  cases e with
  | enqueue cx cz p =>
    simp only [qstep, ChunkGenerationQueue.enqueue]
    split_ifs with hguard
    · exact ⟨hd, hc, hs⟩
    · push_neg at hguard
      refine ⟨?_, hc, List.sorted_insertionSort qle _⟩
      rw [Finset.disjoint_left]
      intro x hx hg
      rcases Finset.mem_insert.mp hx with hxk | hxp
      · exact hguard.2 (hxk ▸ hg)
      · exact (Finset.disjoint_left.mp hd) hxp hg
  | process pf lf uw =>
    have hinv := processGo_inv pf lf uw s.queue s.pending s.generating hd hc
    have happ := processGo_append pf lf uw s.queue s.pending s.generating
    refine ⟨hinv.1, hinv.2, ?_⟩
    have hsorted2 : List.Sorted qle
        ((ChunkGenerationQueue.processGo pf lf uw s.queue s.pending
            s.generating).2.2.2
          ++ (ChunkGenerationQueue.processGo pf lf uw s.queue s.pending
            s.generating).1) := by
      rw [happ]
      exact hs
    exact (List.pairwise_append.mp hsorted2).2.1
  | complete k =>
    refine ⟨?_, le_trans Finset.card_erase_le hc, hs⟩
    rw [Finset.disjoint_left]
    intro x hx hg
    exact (Finset.disjoint_left.mp hd) hx (Finset.mem_of_mem_erase hg)
  | clear =>
    exact ⟨Finset.disjoint_empty_left _,
      by simp [qstep, ChunkGenerationQueue.clear], List.sorted_nil⟩

/-- The invariant holds after any event sequence from the fresh queue. -/
theorem qrun_inv (evs : List QEvent) : QInv (qrun evs) := by
  have haux : ∀ (l : List QEvent) (s : QState), QInv s →
      QInv (l.foldl qstep s) := by
    intro l
    induction l with
    | nil => intro s h; exact h
    | cons e l ih => intro s h; exact ih _ (qstep_inv s e h)
  exact haux evs qinit
    ⟨Finset.disjoint_empty_left _, by simp [qinit], List.sorted_nil⟩

/-- C8. After every sequence of queue operations, pending and in-flight
are disjoint and at most `W_max = 2` keys are in flight; and from any such
state `process` dispatches a prefix of the priority-sorted queue — in
nondecreasing priority order, every dispatched item no worse than
everything left pending. -/
theorem c8_queue_discipline (evs : List QEvent)
    (persist loading : (Int × Int) → Bool) (useWorkers : Bool) :
    QInv (qrun evs) ∧
      (ChunkGenerationQueue.process persist loading useWorkers (qrun evs)).2
          ++ (ChunkGenerationQueue.process persist loading useWorkers
            (qrun evs)).1.queue
        = (qrun evs).queue ∧
      List.Sorted qle
        (ChunkGenerationQueue.process persist loading useWorkers (qrun evs)).2 ∧
      ∀ d ∈ (ChunkGenerationQueue.process persist loading useWorkers
          (qrun evs)).2,
        ∀ rem ∈ (ChunkGenerationQueue.process persist loading useWorkers
          (qrun evs)).1.queue,
        d.priority ≤ rem.priority := by
  have hinv := qrun_inv evs
  have happ := processGo_append persist loading useWorkers (qrun evs).queue
    (qrun evs).pending (qrun evs).generating
  have hsorted2 : List.Sorted qle
      ((ChunkGenerationQueue.processGo persist loading useWorkers
          (qrun evs).queue (qrun evs).pending (qrun evs).generating).2.2.2
        ++ (ChunkGenerationQueue.processGo persist loading useWorkers
          (qrun evs).queue (qrun evs).pending (qrun evs).generating).1) := by
    rw [happ]
    exact hinv.2.2
  obtain ⟨hds, hrem, hcross⟩ := List.pairwise_append.mp hsorted2
  exact ⟨hinv, happ, hds, fun d hd rem hrem2 => hcross d hd rem hrem2⟩
